import Mathlib

/-!
A verification development for two small Python text-repair scripts,
`fix_backticks.py` and `fix_backticks2.py`.  Both read a file, split it on
newline characters, rewrite each line independently through an ordered
cascade of pattern rules, join the lines with newlines again and write the
file back.  Lines are modelled as `List Char`; each Python string operation
used by the scripts (substring test, `str.replace`, `str.strip`,
`str.split(pat, 1)`, `str.count`, and the three concrete regular
expressions) is embedded as an executable Lean function with the same
semantics.  Lines produced by splitting on newlines never contain a newline
character, so the regex anchors `$`/`[^\n]` are modelled as end-of-string /
any-character on such inputs.
-/

set_option maxRecDepth 4000

namespace BacktickRepair

/-! ### Characters -/

/-- The backtick (template-literal delimiter) character. -/
def bt : Char := Char.ofNat 96

/-- The backslash (escape) character. -/
def bs : Char := Char.ofNat 92

/-- The single-quote character. -/
def sq : Char := Char.ofNat 39

/-- The double-quote character. -/
def dq : Char := Char.ofNat 34

/-- ASCII whitespace, as recognised by Python's `str.strip` and the regex
class `\s` on the ASCII inputs at hand. -/
def isWS (c : Char) : Bool :=
  c == ' ' || c == '\t' || c == '\n' || c == '\r' || c == Char.ofNat 11 || c == Char.ofNat 12

/-! ### Python string primitives -/

/-- Python's substring test `pat in l`. -/
def strHas : List Char → List Char → Bool
  | [], pat => pat.isPrefixOf ([] : List Char)
  | c :: rest, pat => pat.isPrefixOf (c :: rest) || strHas rest pat

/-- Worker for `replaceList`: replace every non-overlapping occurrence of the
nonempty pattern `p :: ps`, scanning left to right (Python `str.replace`).
The extra fuel argument (always instantiated with the length of the list,
which bounds the number of scan steps) keeps the recursion structural; when
the fuel is at least the length of the list the fuel case is unreachable. -/
def replaceGo : Nat → List Char → Char → List Char → List Char → List Char
  | _, [], _, _, _ => []
  | 0, c :: rest, _, _, _ => c :: rest
  | fuel + 1, c :: rest, p, ps, rep =>
    if (p :: ps).isPrefixOf (c :: rest) then
      rep ++ replaceGo fuel ((c :: rest).drop (ps.length + 1)) p ps rep
    else
      c :: replaceGo fuel rest p ps rep

/-- Python `l.replace(pat, rep)` (all occurrences, left to right,
non-overlapping).  The scripts never call `replace` with an empty pattern;
that degenerate case is modelled as the identity. -/
def replaceList (l pat rep : List Char) : List Char :=
  match pat with
  | [] => l
  | p :: ps => replaceGo l.length l p ps rep

/-- Leading-whitespace strip (left half of Python `str.strip`). -/
def stripL (l : List Char) : List Char := l.dropWhile isWS

/-- Trailing-whitespace strip (right half of Python `str.strip`). -/
def stripR (l : List Char) : List Char := (l.reverse.dropWhile isWS).reverse

/-- Python `l.strip()`. -/
def pstrip (l : List Char) : List Char := stripR (stripL l)

/-- The part of `l` strictly before the first occurrence of `pat`
(Python `l.split(pat)[0]` when `pat` occurs in `l`). -/
def beforeFirst : List Char → List Char → List Char
  | [], _ => []
  | c :: rest, pat =>
    if pat.isPrefixOf (c :: rest) then [] else c :: beforeFirst rest pat

/-- The part of `l` strictly after the first occurrence of `pat`
(Python `l.split(pat, 1)[1]` when `pat` occurs in `l`). -/
def afterFirst : List Char → List Char → List Char
  | [], _ => []
  | c :: rest, pat =>
    if pat.isPrefixOf (c :: rest) then (c :: rest).drop pat.length else afterFirst rest pat

/-- `cleanPre pre p post = true` states that no occurrence of `p` begins
strictly inside `pre` when scanning `pre ++ p ++ post`; it is the
(decidable) side condition under which the first occurrence of the pattern
`p` in `pre ++ p ++ post` is the explicit one. -/
def cleanPre : List Char → List Char → List Char → Bool
  | [], _, _ => true
  | c :: rest, p, post => !(p.isPrefixOf (c :: (rest ++ (p ++ post)))) && cleanPre rest p post

/-- Does the list start with the given character? (Python `startswith`). -/
def headIs (l : List Char) (c : Char) : Bool :=
  match l with
  | [] => false
  | a :: _ => a == c

/-! ### Field literals from the scripts -/

/-- The damaged role pattern `role: '`input`'`. -/
def patRoleIn : List Char := "role: '`input`'".data

/-- Its repaired form `role: 'input'`. -/
def repRoleIn : List Char := "role: 'input'".data

/-- The damaged role pattern `role: '`output`'`. -/
def patRoleOut : List Char := "role: '`output`'".data

/-- Its repaired form `role: 'output'`. -/
def repRoleOut : List Char := "role: 'output'".data

/-- The literal `role:`. -/
def roleKey : List Char := "role:".data

/-- The literal `description:`. -/
def descKey : List Char := "description:".data

/-- The literal `content:`. -/
def contentKey : List Char := "content:".data

/-- The literal `content: ` followed by a backtick. -/
def patContentBT : List Char := contentKey ++ [' ', bt]

/-- The literal `content: ` followed by a single quote. -/
def patContentSQ : List Char := contentKey ++ [' ', sq]

/-- The literal `content: ` followed by two double quotes. -/
def patContentDQ : List Char := contentKey ++ [' ', dq, dq]

/-! ### The description regex

Both scripts probe a line with the regular expression
`description:\s*'[^']*``[^']*'` (`re.search`, leftmost match).  Because the
character classes exclude the quote, and whitespace is never a quote, the
backtracking regex is equivalent to the deterministic scan below: at a
candidate position the literal `description:` must be present, then maximal
whitespace, then a quote, then the run up to the next quote (which must
exist) has to contain a backtick. -/

/-- Try to match the description regex at the start of `l`; returns the
matched substring (`group(0)` in Python). -/
def descTryAt (l : List Char) : Option (List Char) :=
  if descKey.isPrefixOf l then
    let r1 := l.drop descKey.length
    let w := r1.takeWhile isWS
    let r2 := r1.dropWhile isWS
    match r2 with
    | c :: r3 =>
      if c == sq then
        let v := r3.takeWhile (fun x => !(x == sq))
        let r4 := r3.dropWhile (fun x => !(x == sq))
        match r4 with
        | _ :: _ =>
          if v.contains bt then some (descKey ++ w ++ sq :: (v ++ [sq])) else none
        | [] => none
      else none
    | [] => none
  else none

/-- `re.search` of the description regex: leftmost match wins. -/
def descSearch : List Char → Option (List Char)
  | [] => none
  | c :: rest =>
    match descTryAt (c :: rest) with
    | some m => some m
    | none => descSearch rest

/-! ### The escaping substitution

`re.sub(r'(?<!\\)``', ..., s)` replaces every backtick that is not directly
preceded (in the original string) by a backslash with a backslash-backtick
pair.  Matches are single characters, so a left-to-right scan that threads
the previous original character is an exact model. -/

/-- Worker: `prev` is the character preceding the current position in the
original string (`none` at the start, where the negative lookbehind
succeeds). -/
def escTicksAux : Option Char → List Char → List Char
  | _, [] => []
  | prev, c :: rest =>
    if c == bt && !(prev == some bs) then
      bs :: bt :: escTicksAux (some bt) rest
    else
      c :: escTicksAux (some c) rest

/-- The whole substitution `re.sub(r'(?<!\\)``', '\\``', s)`. -/
def escTicks (l : List Char) : List Char := escTicksAux none l

/-- The previous-character state after processing `u` starting from `p`. -/
def prevAfter (p : Option Char) : List Char → Option Char
  | [] => p
  | c :: u => prevAfter (some c) u

/-! ### Backtick-pair removal (script 2, line 25)

`re.sub(r'``([^``]*)``', r'\1', line)` removes consecutive pairs of backticks
left to right; a final unpaired backtick survives. -/

/-- Split at the first occurrence of the character `x`. -/
def splitFirst (x : Char) : List Char → Option (List Char × List Char)
  | [] => none
  | c :: r =>
    if c == x then some ([], r)
    else
      match splitFirst x r with
      | some (a, b) => some (c :: a, b)
      | none => none

/-- Worker for `stripTickPairs`, made structural by a fuel argument that is
instantiated with the length of the list (an upper bound on the number of
steps, since each step consumes at least one character). -/
def stripTickGo : Nat → List Char → List Char
  | _, [] => []
  | 0, l => l
  | fuel + 1, c :: rest =>
    if c == bt then
      match splitFirst bt rest with
      | some (a, b) => a ++ stripTickGo fuel b
      | none => c :: stripTickGo fuel rest
    else
      c :: stripTickGo fuel rest

/-- Python `re.sub(r'``([^``]*)``', r'\1', l)`. -/
def stripTickPairs (l : List Char) : List Char := stripTickGo l.length l

/-! ### Regex `^(\s*content:\s*)(.+)$` (script 1, line 66)

The leading `\s*` is forced to be the maximal whitespace run (`content:`
starts with a non-whitespace letter), and the second `\s*` is greedy but may
give back one trailing whitespace character to the mandatory `(.+)` when
nothing else remains. -/

/-- Split a line according to `^(\s*content:\s*)(.+)$`: returns
(`group(1)`, `group(2)`) on success. -/
def rule4Split (l : List Char) : Option (List Char × List Char) :=
  let p := l.takeWhile isWS
  let r := l.dropWhile isWS
  if contentKey.isPrefixOf r then
    let r2 := r.drop contentKey.length
    let s := r2.takeWhile isWS
    let rest := r2.dropWhile isWS
    if rest.isEmpty then
      match s.getLast? with
      | some c => some (p ++ contentKey ++ s.dropLast, [c])
      | none => none
    else
      some (p ++ contentKey ++ s, rest)
  else none

/-! ### Regex `^(\s*content:\s*)([^``'"][^\n]+)$` (script 2, line 31)

Here the second `\s*` backtracks until the first remaining character is
outside the class and at least one further character follows. -/

/-- Can `group(2)` start here: first char outside the class and at least one
more character after it? -/
def okC1 : List Char → Bool
  | [] => false
  | c :: t => !(c == bt || c == sq || c == dq) && !t.isEmpty

/-- Backtracking of the second `\s*`: `wRev` is the reversed whitespace still
assigned to `\s*`, `rest` the remainder of the line; gives longest `\s*`
first. -/
def case1Bt : List Char → List Char → Option (List Char × List Char)
  | [], rest => if okC1 rest then some ([], rest) else none
  | c :: w', rest =>
    if okC1 rest then some ((c :: w').reverse, rest) else case1Bt w' (c :: rest)

/-- Split a line according to `^(\s*content:\s*)([^``'"][^\n]+)$`: returns
(`group(1)`, `group(2)`) on success. -/
def case1Split (l : List Char) : Option (List Char × List Char) :=
  let p := l.takeWhile isWS
  let r := l.dropWhile isWS
  if contentKey.isPrefixOf r then
    let r2 := r.drop contentKey.length
    let w := r2.takeWhile isWS
    let rest := r2.dropWhile isWS
    match case1Bt w.reverse rest with
    | some (s, g2) => some (p ++ contentKey ++ s, g2)
    | none => none
  else none

/-! ### The per-line repair of `fix_backticks.py` (`fix_file`, lines 28-74) -/

/-- One pass of `fix_backticks.py` over one line: the role unwrap
(lines 31-34), the description strip (lines 37-44), the interior-backtick
escape for single-line content (lines 47-57) and the bare-content wrap
(lines 60-71), applied in source order to the successively rewritten line. -/
def fixLine1 (line0 : List Char) : List Char :=
  let l1 := if strHas line0 patRoleIn then replaceList line0 patRoleIn repRoleIn else line0
  let l2 := if strHas l1 patRoleOut then replaceList l1 patRoleOut repRoleOut else l1
  let l3 :=
    if strHas l2 descKey && l2.contains bt && l2.contains sq then
      match descSearch l2 with
      | some od => replaceList l2 od (od.filter (fun c => !(c == bt)))
      | none => l2
    else l2
  let l4 :=
    if strHas l3 patContentBT && !(List.isSuffixOf [bt] (pstrip l3)) then
      let cp := afterFirst l3 patContentBT
      if cp.contains bt && !(List.isSuffixOf [bt] cp) then
        (beforeFirst l3 patContentBT ++ patContentBT) ++ escTicks cp
      else l3
    else l3
  if strHas l4 contentKey && !(strHas l4 patContentBT) && !(strHas l4 patContentSQ)
      && !(strHas l4 patContentDQ) && contentKey.isPrefixOf (pstrip l4) then
    match rule4Split l4 with
    | some (pre, rest) =>
      let text := pstrip rest
      if !text.isEmpty && !(headIs text bt) && !(headIs text sq) && !(headIs text dq) then
        pre ++ bt :: (text ++ [bt])
      else l4
    | none => l4
  else l4

/-! ### The per-line repair of `fix_backticks2.py` (`fix_file`, lines 18-58) -/

/-- One pass of `fix_backticks2.py` over one line: the role substitution
(line 21; the alternation `(input|output)` is expanded into the two literal
replacements — the two patterns contain a single `r` each so occurrences
cannot overlap, and the replacement text cannot complete either pattern, so
sequential replacement agrees with the alternation), the description
pair-strip (lines 24-25), the bare-content wrap (lines 31-36) and the
interior-backtick escape (lines 40-58). -/
def fixLine2 (line0 : List Char) : List Char :=
  let l1 := replaceList (replaceList line0 patRoleIn repRoleIn) patRoleOut repRoleOut
  let l2 := if (descSearch l1).isSome then stripTickPairs l1 else l1
  if strHas l2 contentKey then
    let l3 :=
      match case1Split l2 with
      | some pg =>
        let text := pstrip pg.2
        if !text.isEmpty && !(List.isSuffixOf [bt] text) then
          pg.1 ++ bt :: (text ++ [bt])
        else l2
      | none => l2
    if strHas l3 patContentBT && l3.count bt > 2 then
      let pre := beforeFirst l3 patContentBT ++ patContentBT
      let rest := afterFirst l3 patContentBT
      if List.isSuffixOf [bt] rest || List.isSuffixOf [bt, ','] rest then
        if List.isSuffixOf [bt, ','] rest then
          pre ++ (escTicks (rest.dropLast.dropLast) ++ [bt, ','])
        else
          pre ++ (escTicks rest.dropLast ++ [bt])
      else l3
    else l3
  else l2

/-! ### Whole-file transformation and entry points -/

/-- Python `content.split('\n')`. -/
def splitNL : List Char → List (List Char)
  | [] => [[]]
  | c :: rest =>
    if c == '\n' then [] :: splitNL rest
    else
      match splitNL rest with
      | [] => [[c]]
      | l :: ls => (c :: l) :: ls

/-- Python `'\n'.join(lines)`. -/
def joinNL (ls : List (List Char)) : List Char := List.intercalate ['\n'] ls

/-- `fix_file` of `fix_backticks.py`: split, repair each line, join.  (The
loop carries no cross-line state: `in_template` is assigned once and never
read.) -/
def fixFile1 (doc : List Char) : List Char := joinNL ((splitNL doc).map fixLine1)

/-- `fix_file` of `fix_backticks2.py`: split, repair each line, join. -/
def fixFile2 (doc : List Char) : List Char := joinNL ((splitNL doc).map fixLine2)

/-- The hardcoded default path `src/data/chapters.ts`. -/
def defaultPath : List Char := "src/data/chapters.ts".data

/-- Path selection of `fix_backticks.py` (line 82):
`sys.argv[1] if len(sys.argv) > 1 else 'src/data/chapters.ts'`. -/
def chosenPath1 : List (List Char) → List Char
  | _ :: a :: _ => a
  | _ => defaultPath

/-- Path selection of `fix_backticks2.py` (line 69): always the default. -/
def chosenPath2 (_ : List (List Char)) : List Char := defaultPath

/-- The confirmation message `f"Fixed {filepath}"`. -/
def fixedMsg (p : List Char) : List Char := "Fixed ".data ++ p

/-- The observable run of `fix_backticks.py` given `argv` and the content of
the chosen file: (path written, new content, stdout line). -/
def runScript1 (argv : List (List Char)) (input : List Char) :
    List Char × List Char × List Char :=
  (chosenPath1 argv, fixFile1 input, fixedMsg (chosenPath1 argv))

/-- The observable run of `fix_backticks2.py`. -/
def runScript2 (argv : List (List Char)) (input : List Char) :
    List Char × List Char × List Char :=
  (chosenPath2 argv, fixFile2 input, fixedMsg (chosenPath2 argv))


/-- The literal `role: '` that opens a role field whose value follows. -/
def roleOpen : List Char := "role: '".data

/-! ### Example inputs from the specification and concrete test lines -/

/-- The spec's interior-escaping example line `content: `Use `code` here`,`. -/
def exEscape : List Char := "content: `Use `code` here`,".data

/-- The output the spec claims for `exEscape`. -/
def exEscapeClaimed : List Char := "content: `Use \\`code\\` here`,".data

/-- A damaged role line with indentation and a trailing comma. -/
def exRoleIn : List Char := "      role: '`input`',".data

/-- The spec's description example line. -/
def exDesc : List Char := "description: 'use the `foo` helper'".data

/-- The spec's bare-content example line. -/
def exWrap : List Char := "  content: Hello world".data

/-- A line with two damaged description fields. -/
def exDoubleDesc : List Char := "description: 'a`b' description: 'c`d'".data

/-- A description value containing a single (unpaired) backtick. -/
def exOddDesc : List Char := "description: 'a`b'".data

/-- A bare content value that ends with a backtick. -/
def exBareTick : List Char := "content: Hello`".data

/-- A well-formed multi-line content field as a three-line document. -/
def exOpenML : List Char := "content: `Hello\nworld\n`,".data

section Infra

/-! ### Basic lemmas about the string primitives -/

theorem splitFirst_eq {x : Char} :
    ∀ {l a b : List Char}, splitFirst x l = some (a, b) → l = a ++ x :: b := by
  intro l
  induction l with
  | nil => intro a b h; simp [splitFirst] at h
  | cons c r ih =>
    intro a b h
    simp only [splitFirst] at h
    by_cases hc : (c == x) = true
    · rw [if_pos hc] at h
      cases h
      simp [beq_iff_eq.mp hc]
    · rw [if_neg hc] at h
      cases hr : splitFirst x r with
      | none => rw [hr] at h; cases h
      | some p =>
        rw [hr] at h
        cases p with
        | mk a' b' =>
          simp only at h
          cases h
          have := ih hr
          simp [this]


theorem prefOf_iff {p l : List Char} : p.isPrefixOf l = true ↔ ∃ t, l = p ++ t := by
  induction p generalizing l with
  | nil => simp [List.isPrefixOf]
  | cons c p' ih =>
    cases l with
    | nil => simp [List.isPrefixOf]
    | cons d l' =>
      simp only [List.isPrefixOf, Bool.and_eq_true, beq_iff_eq, ih, List.cons_append]
      constructor
      · rintro ⟨rfl, t, rfl⟩
        exact ⟨t, rfl⟩
      · rintro ⟨t, h⟩
        injection h with h1 h2
        exact ⟨h1.symm, t, h2⟩

theorem prefOf_self_append (p t : List Char) : p.isPrefixOf (p ++ t) = true :=
  prefOf_iff.mpr ⟨t, rfl⟩

theorem strHas_iff {l p : List Char} : strHas l p = true ↔ ∃ a b, l = a ++ (p ++ b) := by
  induction l with
  | nil =>
    simp only [strHas, prefOf_iff]
    constructor
    · rintro ⟨t, h⟩
      exact ⟨[], t, by simpa using h⟩
    · rintro ⟨a, b, h⟩
      rcases List.append_eq_nil.mp h.symm with ⟨rfl, h2⟩
      rcases List.append_eq_nil.mp h2 with ⟨rfl, rfl⟩
      exact ⟨[], by simp⟩
  | cons c rest ih =>
    simp only [strHas, Bool.or_eq_true, prefOf_iff, ih]
    constructor
    · rintro (⟨t, h⟩ | ⟨a, b, rfl⟩)
      · exact ⟨[], t, by simpa using h⟩
      · exact ⟨c :: a, b, rfl⟩
    · rintro ⟨a, b, h⟩
      cases a with
      | nil => exact Or.inl ⟨b, by simpa using h⟩
      | cons a0 a' =>
        injection h with h1 h2
        exact Or.inr ⟨a', b, h2⟩

theorem strHas_parts (a p b : List Char) : strHas (a ++ (p ++ b)) p = true :=
  strHas_iff.mpr ⟨a, b, rfl⟩

theorem mem_of_strHas {l p : List Char} {c : Char} (h : strHas l p = true) (hc : c ∈ p) :
    c ∈ l := by
  obtain ⟨a, b, rfl⟩ := strHas_iff.mp h
  simp [hc]

theorem strHas_false_of_not_mem {l p : List Char} {c : Char} (hc : c ∈ p) (hl : c ∉ l) :
    strHas l p = false := by
  cases h : strHas l p with
  | false => rfl
  | true => exact absurd (mem_of_strHas h hc) hl

theorem strHas_sub {l x p y : List Char} (h : strHas l (x ++ (p ++ y)) = true) :
    strHas l p = true := by
  obtain ⟨a, b, rfl⟩ := strHas_iff.mp h
  refine strHas_iff.mpr ⟨a ++ x, y ++ b, by simp⟩

theorem strHas_extend_false {l p q x y : List Char} (h : strHas l p = false)
    (hq : q = x ++ (p ++ y)) : strHas l q = false := by
  cases hs : strHas l q with
  | false => rfl
  | true =>
    subst hq
    exact absurd (strHas_sub hs) (by simp [h])


theorem cleanPre_of_ws {ws post : List Char} {c : Char} {ps : List Char}
    (hws : ws.all isWS = true) (hc : isWS c = false) :
    cleanPre ws (c :: ps) post = true := by
  induction ws with
  | nil => rfl
  | cons w ws' ih =>
    rw [List.all_cons, Bool.and_eq_true] at hws
    simp only [cleanPre, Bool.and_eq_true, Bool.not_eq_true']
    refine ⟨?_, ih hws.2⟩
    simp only [List.isPrefixOf, Bool.and_eq_false_iff]
    left
    rw [beq_eq_false_iff_ne]
    intro h
    rw [h] at hc
    rw [hws.1] at hc
    cases hc

/-! ### `replaceList` -/

theorem replaceGo_of_not_has {fuel : Nat} {l : List Char} {p : Char} {ps rep : List Char}
    (h : strHas l (p :: ps) = false) : replaceGo fuel l p ps rep = l := by
  induction fuel generalizing l with
  | zero => cases l <;> rfl
  | succ f ih =>
    cases l with
    | nil => rfl
    | cons c rest =>
      simp only [strHas, Bool.or_eq_false_iff] at h
      rw [replaceGo, if_neg (by simp [h.1]), ih h.2]

theorem replace_not_has {l pat rep : List Char} (h : strHas l pat = false) :
    replaceList l pat rep = l := by
  cases pat with
  | nil => rfl
  | cons p ps => exact replaceGo_of_not_has h

theorem replaceGo_parts {fuel : Nat} {pre post rep : List Char} {p : Char} {ps : List Char}
    (hf : pre.length + 1 ≤ fuel)
    (hpre : cleanPre pre (p :: ps) post = true)
    (hpost : strHas post (p :: ps) = false) :
    replaceGo fuel (pre ++ ((p :: ps) ++ post)) p ps rep = pre ++ (rep ++ post) := by
  induction pre generalizing fuel with
  | nil =>
    cases fuel with
    | zero => omega
    | succ f =>
      simp only [List.nil_append, List.cons_append]
      rw [replaceGo]
      rw [if_pos (by simpa using prefOf_self_append (p :: ps) post)]
      have hdrop : (p :: (ps ++ post)).drop (ps.length + 1) = post := by
        rw [List.drop_succ_cons]
        exact List.drop_left ps post
      rw [hdrop, replaceGo_of_not_has hpost]
  | cons c pre' ih =>
    cases fuel with
    | zero => omega
    | succ f =>
      simp only [cleanPre, Bool.and_eq_true, Bool.not_eq_true'] at hpre
      simp only [List.cons_append]
      rw [replaceGo]
      have hno := hpre.1
      simp only [List.cons_append] at hno
      rw [if_neg (by simp [hno])]
      have hf' : pre'.length + 1 ≤ f := by
        simp only [List.length_cons] at hf
        omega
      have := ih hf' hpre.2
      simp only [List.cons_append] at this
      rw [this]

theorem replace_parts {pre post rep : List Char} {p : Char} {ps : List Char}
    (hpre : cleanPre pre (p :: ps) post = true)
    (hpost : strHas post (p :: ps) = false) :
    replaceList (pre ++ ((p :: ps) ++ post)) (p :: ps) rep = pre ++ (rep ++ post) := by
  have hf : pre.length + 1 ≤ (pre ++ ((p :: ps) ++ post)).length := by
    simp only [List.length_append, List.length_cons]
    omega
  exact replaceGo_parts hf hpre hpost

theorem afterFirst_parts {pre post : List Char} {p : Char} {ps : List Char}
    (hpre : cleanPre pre (p :: ps) post = true) :
    afterFirst (pre ++ ((p :: ps) ++ post)) (p :: ps) = post := by
  induction pre with
  | nil =>
    simp only [List.nil_append, List.cons_append, afterFirst]
    rw [if_pos (by simpa using prefOf_self_append (p :: ps) post)]
    have : (p :: ps).length = ps.length + 1 := by simp
    simpa using (List.drop_left (p :: ps) post)
  | cons c pre' ih =>
    simp only [cleanPre, Bool.and_eq_true, Bool.not_eq_true'] at hpre
    simp only [List.cons_append, afterFirst]
    rw [if_neg (by simp only [List.cons_append] at hpre ⊢; simp [hpre.1])]
    simpa using ih hpre.2

theorem beforeFirst_parts {pre post : List Char} {p : Char} {ps : List Char}
    (hpre : cleanPre pre (p :: ps) post = true) :
    beforeFirst (pre ++ ((p :: ps) ++ post)) (p :: ps) = pre := by
  induction pre with
  | nil =>
    simp only [List.nil_append, List.cons_append, beforeFirst]
    rw [if_pos (by simpa using prefOf_self_append (p :: ps) post)]
  | cons c pre' ih =>
    simp only [cleanPre, Bool.and_eq_true, Bool.not_eq_true'] at hpre
    simp only [List.cons_append, beforeFirst]
    rw [if_neg (by simp only [List.cons_append] at hpre ⊢; simp [hpre.1])]
    simpa using ih hpre.2

end Infra

section Infra2

/-! ### takeWhile / dropWhile / strip -/

theorem takeWhile_append_all {q : Char → Bool} {ws l : List Char} (h : ws.all q = true) :
    (ws ++ l).takeWhile q = ws ++ l.takeWhile q := by
  induction ws with
  | nil => simp
  | cons w ws' ih =>
    rw [List.all_cons, Bool.and_eq_true] at h
    simp [List.takeWhile_cons, h.1, ih h.2]

theorem dropWhile_append_all {q : Char → Bool} {ws l : List Char} (h : ws.all q = true) :
    (ws ++ l).dropWhile q = l.dropWhile q := by
  induction ws with
  | nil => simp
  | cons w ws' ih =>
    rw [List.all_cons, Bool.and_eq_true] at h
    simp [List.dropWhile_cons, h.1, ih h.2]

theorem takeWhile_cons_neg {q : Char → Bool} {c : Char} {l : List Char} (h : q c = false) :
    (c :: l).takeWhile q = [] := by
  simp [List.takeWhile_cons, h]

theorem dropWhile_cons_neg {q : Char → Bool} {c : Char} {l : List Char} (h : q c = false) :
    (c :: l).dropWhile q = c :: l := by
  simp [List.dropWhile_cons, h]

theorem takeWhile_middle {q : Char → Bool} {v b : List Char} {x : Char}
    (hv : v.all q = true) (hx : q x = false) :
    (v ++ x :: b).takeWhile q = v := by
  rw [takeWhile_append_all hv, takeWhile_cons_neg hx, List.append_nil]

theorem dropWhile_middle {q : Char → Bool} {v b : List Char} {x : Char}
    (hv : v.all q = true) (hx : q x = false) :
    (v ++ x :: b).dropWhile q = x :: b := by
  rw [dropWhile_append_all hv, dropWhile_cons_neg hx]

theorem stripL_ws_append {ws l : List Char} (h : ws.all isWS = true) :
    stripL (ws ++ l) = stripL l :=
  dropWhile_append_all h

theorem stripL_cons_neg {c : Char} {l : List Char} (h : isWS c = false) :
    stripL (c :: l) = c :: l :=
  dropWhile_cons_neg h

theorem stripR_concat_neg {l : List Char} {c : Char} (h : isWS c = false) :
    stripR (l ++ [c]) = l ++ [c] := by
  unfold stripR
  rw [List.reverse_append]
  simp only [List.reverse_cons, List.reverse_nil, List.nil_append, List.singleton_append]
  rw [dropWhile_cons_neg h]
  simp

theorem stripR_append_ws {l t : List Char} (h : t.all isWS = true) :
    stripR (l ++ t) = stripR l := by
  unfold stripR
  rw [List.reverse_append, dropWhile_append_all (by simpa using h)]

theorem stripR_nil : stripR [] = [] := rfl

theorem pstrip_nil : pstrip [] = [] := rfl

/-! ### Suffix tests -/

theorem isSufOf_iff {p l : List Char} : List.isSuffixOf p l = true ↔ ∃ a, l = a ++ p := by
  unfold List.isSuffixOf
  rw [prefOf_iff]
  constructor
  · rintro ⟨t, ht⟩
    refine ⟨t.reverse, ?_⟩
    rw [← List.reverse_reverse l, ht]
    simp
  · rintro ⟨a, rfl⟩
    exact ⟨a.reverse, by simp⟩

theorem isSufOf_concat (x : Char) (a : List Char) : List.isSuffixOf [x] (a ++ [x]) = true :=
  isSufOf_iff.mpr ⟨a, rfl⟩

theorem isSufOf_single_false {x : Char} {l : List Char} (h : x ∉ l) :
    List.isSuffixOf [x] l = false := by
  cases hs : List.isSuffixOf [x] l with
  | false => rfl
  | true =>
    obtain ⟨a, rfl⟩ := isSufOf_iff.mp hs
    exact absurd (by simp) h

theorem isSufOf_pair_concat_false {x y z : Char} {a : List Char} (h : z ≠ y) :
    List.isSuffixOf [x, y] (a ++ [z]) = false := by
  cases hs : List.isSuffixOf [x, y] (a ++ [z]) with
  | false => rfl
  | true =>
    obtain ⟨b, hb⟩ := isSufOf_iff.mp hs
    have h1 : (a ++ [z]).getLast? = some z := List.getLast?_concat a
    have h2 : (b ++ [x, y]).getLast? = some y := by
      have : b ++ [x, y] = (b ++ [x]) ++ [y] := by simp
      rw [this]
      exact List.getLast?_concat (b ++ [x])
    rw [hb, h2] at h1
    exact absurd (Option.some.inj h1).symm h

/-! ### The escape substitution -/

theorem prevAfter_cons (p : Option Char) (c : Char) (u : List Char) :
    prevAfter p (c :: u) = prevAfter (some c) u := rfl

theorem escTicksAux_append (p : Option Char) (u v : List Char) :
    escTicksAux p (u ++ v) = escTicksAux p u ++ escTicksAux (prevAfter p u) v := by
  induction u generalizing p with
  | nil => simp [prevAfter, escTicksAux]
  | cons c u' ih =>
    simp only [List.cons_append, escTicksAux, List.append_eq]
    by_cases h : (c == bt && !(p == some bs)) = true
    · have hc : c = bt := by
        rw [Bool.and_eq_true] at h
        exact beq_iff_eq.mp h.1
      rw [if_pos h, if_pos h, ih (some bt), prevAfter_cons, hc]
      simp
    · rw [if_neg h, if_neg h, ih (some c), prevAfter_cons]
      simp

theorem escTicksAux_pair (q : Option Char) (v : List Char) :
    escTicksAux q (bs :: bt :: v) = bs :: bt :: escTicksAux (some bt) v := by
  have h1 : (bs == bt) = false := by decide
  have h2 : (bt == bt && !((some bs : Option Char) == some bs)) = false := by decide
  simp only [escTicksAux, h1, Bool.false_and, Bool.and_eq_true]
  rw [if_neg (by simp), if_neg (by simp [h2])]

/-! ### The description search -/

theorem descTryAt_none_of_not_pref {l : List Char} (h : descKey.isPrefixOf l = false) :
    descTryAt l = none := by
  simp [descTryAt, h]

theorem descSearch_none_of_no_key {l : List Char} (h : strHas l descKey = false) :
    descSearch l = none := by
  induction l with
  | nil => rfl
  | cons c rest ih =>
    simp only [strHas, Bool.or_eq_false_iff] at h
    rw [descSearch, descTryAt_none_of_not_pref h.1, ih h.2]

theorem descTryAt_some_sq {l m : List Char} (h : descTryAt l = some m) : sq ∈ l := by
  by_cases hp : descKey.isPrefixOf l = true
  · obtain ⟨t, rfl⟩ := prefOf_iff.mp hp
    simp only [descTryAt, if_pos hp, List.drop_left] at h
    cases hr : t.dropWhile isWS with
    | nil => rw [hr] at h; simp at h
    | cons c r3 =>
      rw [hr] at h
      by_cases hc : (c == sq) = true
      · have hmem : c ∈ t.dropWhile isWS := by rw [hr]; exact List.mem_cons_self c r3
        have hct : c ∈ t := (List.dropWhile_sublist isWS).mem hmem
        rw [beq_iff_eq.mp hc] at hct
        exact List.mem_append_right _ hct
      · simp [hc] at h
  · rw [descTryAt_none_of_not_pref (Bool.eq_false_iff.mpr hp)] at h
    cases h

theorem descSearch_none_of_no_sq {l : List Char} (h : sq ∉ l) : descSearch l = none := by
  induction l with
  | nil => rfl
  | cons c rest ih =>
    have h2 : sq ∉ rest := fun hm => h (List.mem_cons_of_mem _ hm)
    rw [descSearch]
    cases hda : descTryAt (c :: rest) with
    | none => exact ih h2
    | some m => exact absurd (descTryAt_some_sq hda) h

theorem beq_false_of_ws {w c : Char} (hw : isWS w = true) (hc : isWS c = false) :
    (c == w) = false := by
  rw [beq_eq_false_iff_ne]
  intro h
  rw [h, hw] at hc
  cases hc

theorem descTryAt_cons_ws {w : Char} {l : List Char} (hw : isWS w = true) :
    descTryAt (w :: l) = none := by
  apply descTryAt_none_of_not_pref
  have : descKey = 'd' :: "escription:".data := by decide
  rw [this]
  simp only [List.isPrefixOf]
  rw [beq_false_of_ws hw (by decide)]
  simp

theorem descSearch_ws_append {ws l : List Char} (hws : ws.all isWS = true) :
    descSearch (ws ++ l) = descSearch l := by
  induction ws with
  | nil => simp
  | cons w ws' ih =>
    rw [List.all_cons, Bool.and_eq_true] at hws
    rw [List.cons_append, descSearch, descTryAt_cons_ws hws.1, ih hws.2]

theorem descTryAt_at {v post : List Char}
    (hv : v.all (fun x => !(x == sq)) = true) (hbt : v.contains bt = true) :
    descTryAt (descKey ++ (' ' :: sq :: (v ++ sq :: post)))
      = some (descKey ++ ([' '] ++ (sq :: (v ++ [sq])))) := by
  have hp := prefOf_self_append descKey (' ' :: sq :: (v ++ sq :: post))
  simp only [descTryAt, if_pos hp]
  rw [List.drop_left]
  have hws1 : isWS ' ' = true := by decide
  have hsq : isWS sq = false := by decide
  rw [show (' ' :: sq :: (v ++ sq :: post)).takeWhile isWS = [' '] from by
        rw [show (' ' :: sq :: (v ++ sq :: post)) = [' '] ++ sq :: (v ++ sq :: post) from rfl]
        exact takeWhile_middle (by simp [hws1]) hsq]
  rw [show (' ' :: sq :: (v ++ sq :: post)).dropWhile isWS = sq :: (v ++ sq :: post) from by
        rw [show (' ' :: sq :: (v ++ sq :: post)) = [' '] ++ sq :: (v ++ sq :: post) from rfl]
        exact dropWhile_middle (by simp [hws1]) hsq]
  simp only [beq_self_eq_true, if_pos]
  rw [takeWhile_middle hv (by simp), dropWhile_middle hv (by simp)]
  have hbtm : bt ∈ v := by simpa using hbt
  simp [hbtm]

/-! ### Miscellaneous -/

theorem count_zero_of_all_ws {ws : List Char} (h : ws.all isWS = true) : ws.count bt = 0 := by
  rw [List.count_eq_zero]
  intro hm
  have := List.all_eq_true.mp h bt hm
  have hfalse : isWS bt = false := by decide
  rw [hfalse] at this
  cases this

theorem contains_iff {l : List Char} {c : Char} : l.contains c = true ↔ c ∈ l :=
  List.elem_iff

theorem not_mem_of_all_ne {l : List Char} {c : Char}
    (h : l.all (fun x => !(x == c)) = true) : c ∉ l := by
  intro hm
  have := List.all_eq_true.mp h c hm
  simp at this

theorem ws_ne_char {w c : Char} (hw : isWS w = true) (hc : isWS c = false) : w ≠ c := by
  intro h
  rw [h, hc] at hw
  cases hw

end Infra2

section Infra3

/-! ### Convenience wrappers used by the claim proofs -/

theorem contains_false_of_not_mem {l : List Char} {c : Char} (h : c ∉ l) :
    l.contains c = false := by
  cases hb : l.contains c with
  | false => rfl
  | true => exact absurd (contains_iff.mp hb) h

theorem contains_true_of_mem {l : List Char} {c : Char} (h : c ∈ l) : l.contains c = true :=
  contains_iff.mpr h

theorem not_mem_of_all_ws {ws : List Char} {c : Char} (hws : ws.all isWS = true)
    (hc : isWS c = false) : c ∉ ws := by
  intro hm
  have hmem := List.all_eq_true.mp hws c hm
  rw [hc] at hmem
  cases hmem

theorem not_mem_append_iff {c : Char} {a b : List Char} (ha : c ∉ a) (hb : c ∉ b) :
    c ∉ a ++ b := by
  intro hm
  rcases List.mem_append.mp hm with h | h
  · exact ha h
  · exact hb h

theorem cleanPre_head {ws post pat : List Char} {c : Char} (hws : ws.all isWS = true)
    (hh : pat.head? = some c) (hc : isWS c = false) : cleanPre ws pat post = true := by
  cases pat with
  | nil => cases hh
  | cons p ps =>
    have hpc : p = c := by
      simpa using hh
    subst hpc
    exact cleanPre_of_ws hws hc

theorem replace_parts_ne {pre post rep pat : List Char} (hne : pat ≠ [])
    (hpre : cleanPre pre pat post = true) (hpost : strHas post pat = false) :
    replaceList (pre ++ (pat ++ post)) pat rep = pre ++ (rep ++ post) := by
  cases pat with
  | nil => exact absurd rfl hne
  | cons p ps => exact replace_parts hpre hpost

theorem afterFirst_parts_ne {pre post pat : List Char} (hne : pat ≠ [])
    (hpre : cleanPre pre pat post = true) :
    afterFirst (pre ++ (pat ++ post)) pat = post := by
  cases pat with
  | nil => exact absurd rfl hne
  | cons p ps => exact afterFirst_parts hpre

theorem beforeFirst_parts_ne {pre post pat : List Char} (hne : pat ≠ [])
    (hpre : cleanPre pre pat post = true) :
    beforeFirst (pre ++ (pat ++ post)) pat = pre := by
  cases pat with
  | nil => exact absurd rfl hne
  | cons p ps => exact beforeFirst_parts hpre

theorem descSearch_of_tryAt {l m : List Char} (h : descTryAt l = some m) :
    descSearch l = some m := by
  cases l with
  | nil =>
    have : descTryAt ([] : List Char) = none := rfl
    rw [this] at h
    cases h
  | cons c rest => rw [descSearch, h]

theorem strHas_bt_of_mem {l : List Char} (h : bt ∈ l) : l.contains bt = true :=
  contains_true_of_mem h

theorem dropWhile_fix_head {q : Char → Bool} {c : Char} {tail : List Char}
    (h : (c :: tail).dropWhile q = c :: tail) : q c = false := by
  cases hq : q c with
  | false => rfl
  | true =>
    have h2 : (c :: tail).dropWhile q = tail.dropWhile q := by
      simp [List.dropWhile_cons, hq]
    rw [h2] at h
    have hsub : List.Sublist (List.dropWhile q tail) tail := List.dropWhile_sublist q
    have hlen := hsub.length_le
    rw [h] at hlen
    simp at hlen

theorem stripR_append_of_fix {x v : List Char} (hv : stripR v = v) (hne : v ≠ []) :
    stripR (x ++ v) = x ++ v := by
  have hrev : v.reverse.dropWhile isWS = v.reverse := by
    have := congrArg List.reverse hv
    simpa [stripR] using this
  cases hvr : v.reverse with
  | nil =>
    exact absurd (by simpa using congrArg List.reverse hvr) hne
  | cons c0 tail =>
    rw [hvr] at hrev
    have hc0 : isWS c0 = false := dropWhile_fix_head hrev
    unfold stripR
    rw [List.reverse_append, hvr, List.cons_append, dropWhile_cons_neg hc0,
      ← List.cons_append, ← hvr]
    simp


end Infra3

section Claims

/-- C8: every line that contains none of the substrings `role:`,
`description:` and `content:` is emitted byte-identical by one pass of
either script's per-line repair. -/
theorem c8_unrelated_line_unchanged (l : List Char)
    (hrole : strHas l roleKey = false)
    (hdesc : strHas l descKey = false)
    (hcont : strHas l contentKey = false) :
    fixLine1 l = l ∧ fixLine2 l = l := by
  have hri : strHas l patRoleIn = false :=
    strHas_extend_false hrole (show patRoleIn = [] ++ (roleKey ++ " '`input`'".data) by decide)
  have hro : strHas l patRoleOut = false :=
    strHas_extend_false hrole (show patRoleOut = [] ++ (roleKey ++ " '`output`'".data) by decide)
  have hcb : strHas l patContentBT = false :=
    strHas_extend_false hcont (show patContentBT = [] ++ (contentKey ++ [' ', bt]) from rfl)
  have hcs : strHas l patContentSQ = false :=
    strHas_extend_false hcont (show patContentSQ = [] ++ (contentKey ++ [' ', sq]) from rfl)
  have hcd : strHas l patContentDQ = false :=
    strHas_extend_false hcont (show patContentDQ = [] ++ (contentKey ++ [' ', dq, dq]) from rfl)
  have hds : descSearch l = none := descSearch_none_of_no_key hdesc
  constructor
  · simp [fixLine1, hri, hro, hdesc, hcb, hcont, hcs, hcd]
  · simp [fixLine2, replace_not_has hri, replace_not_has hro, hds, hcont]

/-- Closed witness for `c8_unrelated_line_unchanged`. -/
theorem c8_witness :
    fixLine1 "  title: 'Intro',".data = "  title: 'Intro',".data ∧
    fixLine2 "  title: 'Intro',".data = "  title: 'Intro',".data :=
  c8_unrelated_line_unchanged _ (by decide) (by decide) (by decide)

/-- C5: on a line of leading whitespace, the damaged token `role: '`input`'`
and a remainder free of further damaged role tokens and of the other field
keys, both scripts rewrite the token to `role: 'input'` (and symmetrically
for `output`); a line carrying any other backtick-wrapped role value — one
on which neither damaged role pattern, no `description:` and no `content:`
occurs — is left unchanged by both scripts. -/
theorem c5_role_unwrap :
    (∀ ws post : List Char, ws.all isWS = true →
      strHas post patRoleIn = false →
      strHas (ws ++ (repRoleIn ++ post)) patRoleOut = false →
      strHas (ws ++ (repRoleIn ++ post)) descKey = false →
      strHas (ws ++ (repRoleIn ++ post)) contentKey = false →
      fixLine1 (ws ++ (patRoleIn ++ post)) = ws ++ (repRoleIn ++ post) ∧
      fixLine2 (ws ++ (patRoleIn ++ post)) = ws ++ (repRoleIn ++ post)) ∧
    (∀ ws post : List Char, ws.all isWS = true →
      strHas post patRoleOut = false →
      strHas (ws ++ (patRoleOut ++ post)) patRoleIn = false →
      strHas (ws ++ (repRoleOut ++ post)) descKey = false →
      strHas (ws ++ (repRoleOut ++ post)) contentKey = false →
      fixLine1 (ws ++ (patRoleOut ++ post)) = ws ++ (repRoleOut ++ post) ∧
      fixLine2 (ws ++ (patRoleOut ++ post)) = ws ++ (repRoleOut ++ post)) ∧
    (∀ v ws post : List Char,
      strHas (ws ++ (roleOpen ++ (bt :: (v ++ (bt :: sq :: post))))) patRoleIn = false →
      strHas (ws ++ (roleOpen ++ (bt :: (v ++ (bt :: sq :: post))))) patRoleOut = false →
      strHas (ws ++ (roleOpen ++ (bt :: (v ++ (bt :: sq :: post))))) descKey = false →
      strHas (ws ++ (roleOpen ++ (bt :: (v ++ (bt :: sq :: post))))) contentKey = false →
      fixLine1 (ws ++ (roleOpen ++ (bt :: (v ++ (bt :: sq :: post))))) =
        ws ++ (roleOpen ++ (bt :: (v ++ (bt :: sq :: post)))) ∧
      fixLine2 (ws ++ (roleOpen ++ (bt :: (v ++ (bt :: sq :: post))))) =
        ws ++ (roleOpen ++ (bt :: (v ++ (bt :: sq :: post))))) := by
  refine ⟨?_, ?_, ?_⟩
  · intro ws post hws hpost hout hdesc hcont
    have hg1 : strHas (ws ++ (patRoleIn ++ post)) patRoleIn = true := strHas_parts ws patRoleIn post
    have hrepl : replaceList (ws ++ (patRoleIn ++ post)) patRoleIn repRoleIn
        = ws ++ (repRoleIn ++ post) :=
      replace_parts_ne (by decide)
        (@cleanPre_head ws post patRoleIn 'r' hws (by decide) (by decide)) hpost
    have hcb : strHas (ws ++ (repRoleIn ++ post)) patContentBT = false :=
      strHas_extend_false hcont (show patContentBT = [] ++ (contentKey ++ [' ', bt]) from rfl)
    have hcs : strHas (ws ++ (repRoleIn ++ post)) patContentSQ = false :=
      strHas_extend_false hcont (show patContentSQ = [] ++ (contentKey ++ [' ', sq]) from rfl)
    have hcd : strHas (ws ++ (repRoleIn ++ post)) patContentDQ = false :=
      strHas_extend_false hcont (show patContentDQ = [] ++ (contentKey ++ [' ', dq, dq]) from rfl)
    have hds : descSearch (ws ++ (repRoleIn ++ post)) = none := descSearch_none_of_no_key hdesc
    constructor
    · simp [fixLine1, hg1, hrepl, hout, hdesc, hcont, hcb, hcs, hcd]
    · simp [fixLine2, hrepl, replace_not_has hout, hds, hcont]
  · intro ws post hws hpost hin hdesc hcont
    have hg1 : strHas (ws ++ (patRoleOut ++ post)) patRoleOut = true := strHas_parts ws patRoleOut post
    have hrepl : replaceList (ws ++ (patRoleOut ++ post)) patRoleOut repRoleOut
        = ws ++ (repRoleOut ++ post) :=
      replace_parts_ne (by decide)
        (@cleanPre_head ws post patRoleOut 'r' hws (by decide) (by decide)) hpost
    have hcb : strHas (ws ++ (repRoleOut ++ post)) patContentBT = false :=
      strHas_extend_false hcont (show patContentBT = [] ++ (contentKey ++ [' ', bt]) from rfl)
    have hcs : strHas (ws ++ (repRoleOut ++ post)) patContentSQ = false :=
      strHas_extend_false hcont (show patContentSQ = [] ++ (contentKey ++ [' ', sq]) from rfl)
    have hcd : strHas (ws ++ (repRoleOut ++ post)) patContentDQ = false :=
      strHas_extend_false hcont (show patContentDQ = [] ++ (contentKey ++ [' ', dq, dq]) from rfl)
    have hds : descSearch (ws ++ (repRoleOut ++ post)) = none := descSearch_none_of_no_key hdesc
    constructor
    · simp [fixLine1, hin, hg1, hrepl, hdesc, hcont, hcb, hcs, hcd]
    · simp [fixLine2, replace_not_has hin, hrepl, hds, hcont]
  · intro v ws post hri hro hdesc hcont
    have hcb := strHas_extend_false hcont
      (show patContentBT = [] ++ (contentKey ++ [' ', bt]) from rfl)
    have hcs := strHas_extend_false hcont
      (show patContentSQ = [] ++ (contentKey ++ [' ', sq]) from rfl)
    have hcd := strHas_extend_false hcont
      (show patContentDQ = [] ++ (contentKey ++ [' ', dq, dq]) from rfl)
    have hds := descSearch_none_of_no_key hdesc
    constructor
    · simp [fixLine1, hri, hro, hdesc, hcb, hcont, hcs, hcd]
    · simp [fixLine2, replace_not_has hri, replace_not_has hro, hds, hcont]

/-- Closed witness for `c5_role_unwrap`. -/
theorem c5_witness :
    (fixLine1 ("  ".data ++ (patRoleIn ++ ",".data)) = "  ".data ++ (repRoleIn ++ ",".data) ∧
     fixLine2 ("  ".data ++ (patRoleIn ++ ",".data)) = "  ".data ++ (repRoleIn ++ ",".data)) ∧
    (fixLine1 ("  ".data ++ (patRoleOut ++ ",".data)) = "  ".data ++ (repRoleOut ++ ",".data) ∧
     fixLine2 ("  ".data ++ (patRoleOut ++ ",".data)) = "  ".data ++ (repRoleOut ++ ",".data)) ∧
    (fixLine1 ([] ++ (roleOpen ++ (bt :: ("other".data ++ (bt :: sq :: []))))) =
       [] ++ (roleOpen ++ (bt :: ("other".data ++ (bt :: sq :: [])))) ∧
     fixLine2 ([] ++ (roleOpen ++ (bt :: ("other".data ++ (bt :: sq :: []))))) =
       [] ++ (roleOpen ++ (bt :: ("other".data ++ (bt :: sq :: []))))) :=
  ⟨c5_role_unwrap.1 "  ".data ",".data (by decide) (by decide) (by decide) (by decide) (by decide),
   c5_role_unwrap.2.1 "  ".data ",".data (by decide) (by decide) (by decide) (by decide) (by decide),
   c5_role_unwrap.2.2 "other".data [] [] (by decide) (by decide) (by decide) (by decide)⟩

/-- C9 (amended): `fix_backticks.py` repairs the file named by the first
command-line argument, falling back to the hardcoded default
`src/data/chapters.ts` when no argument is given, and prints `Fixed <path>`;
`fix_backticks2.py` ignores the argument vector entirely and always repairs
the hardcoded default path. -/
theorem c9_cli_behaviour :
    (∀ (p a : List Char) (r : List (List Char)) (input : List Char),
        runScript1 (p :: a :: r) input = (a, fixFile1 input, fixedMsg a)) ∧
    (∀ (p input : List Char),
        runScript1 [p] input = (defaultPath, fixFile1 input, fixedMsg defaultPath)) ∧
    (∀ input : List Char,
        runScript1 [] input = (defaultPath, fixFile1 input, fixedMsg defaultPath)) ∧
    (∀ (argv : List (List Char)) (input : List Char),
        runScript2 argv input = (defaultPath, fixFile2 input, fixedMsg defaultPath)) :=
  ⟨fun _ _ _ _ => rfl, fun _ _ => rfl, fun _ => rfl, fun _ _ => rfl⟩

/-- C9 counterexample: invoked with an explicit path argument, the second
script still selects the hardcoded default file rather than the argument. -/
theorem c9_counterexample :
    (runScript2 ["fix_backticks2.py".data, "other.ts".data] []).1 ≠ "other.ts".data := by
  decide

/-- C7: the escape substitution — the only operation of either script that
inserts escape prefixes — copies a backslash-backtick pair through unchanged
wherever it occurs (the lookbehind skips a delimiter already preceded by the
escape character); concretely, one pass of either script adds no second
prefix to an already-escaped interior delimiter. -/
theorem c7_no_double_escape :
    (∀ (p : Option Char) (u v : List Char),
        escTicksAux p (u ++ (bs :: bt :: v)) =
          escTicksAux p u ++ (bs :: bt :: escTicksAux (some bt) v)) ∧
    fixLine1 "content: `keep \\`this\\` here`,".data
      = "content: `keep \\`this\\` here\\`,".data ∧
    fixLine2 "content: `keep \\`this\\` and `new` here`".data
      = "content: `keep \\`this\\` and \\`new\\` here`".data := by
  refine ⟨fun p u v => ?_, by decide, by decide⟩
  rw [escTicksAux_append, escTicksAux_pair]

/-- C2 (amended): both per-line repairs are idempotent on the spec's four
damaged example lines (role unwrap, description strip, bare-content wrap,
interior escape); unrestricted per-line idempotence fails for
`fix_backticks.py`, which rewrites a line holding two damaged description
fields on the second pass as well (see the counterexample). -/
theorem c2_idempotent_on_examples :
    (fixLine1 (fixLine1 exRoleIn) = fixLine1 exRoleIn ∧
     fixLine2 (fixLine2 exRoleIn) = fixLine2 exRoleIn) ∧
    (fixLine1 (fixLine1 exDesc) = fixLine1 exDesc ∧
     fixLine2 (fixLine2 exDesc) = fixLine2 exDesc) ∧
    (fixLine1 (fixLine1 exWrap) = fixLine1 exWrap ∧
     fixLine2 (fixLine2 exWrap) = fixLine2 exWrap) ∧
    (fixLine1 (fixLine1 exEscape) = fixLine1 exEscape ∧
     fixLine2 (fixLine2 exEscape) = fixLine2 exEscape) :=
  ⟨⟨by decide, by decide⟩, ⟨by decide, by decide⟩, ⟨by decide, by decide⟩,
   ⟨by decide, by decide⟩⟩

/-- C2 counterexample: on the one-line document holding two damaged
description fields, a second pass of `fix_backticks.py` changes the output
of the first pass again, refuting document-level idempotence. -/
theorem c2_counterexample :
    fixFile1 (fixFile1 exDoubleDesc) ≠ fixFile1 exDoubleDesc := by decide

theorem okC1_bt (rest : List Char) : okC1 (bt :: rest) = false := by
  simp [okC1]

theorem okC1_space (y : List Char) (hy : y ≠ []) : okC1 (' ' :: y) = true := by
  have h1 : ((' ' : Char) == bt) = false := by decide
  have h2 : ((' ' : Char) == sq) = false := by decide
  have h3 : ((' ' : Char) == dq) = false := by decide
  simp [okC1, h1, h2, h3, hy]

theorem contentKey_cons : patContentBT ++ ([] : List Char) = patContentBT := by simp

theorem patContentBT_shape (rest : List Char) :
    patContentBT ++ rest = 'c' :: ("ontent:".data ++ ([' ', bt] ++ rest)) := rfl

theorem case1Split_openBT {ws rest : List Char} (hws : ws.all isWS = true) :
    case1Split (ws ++ (patContentBT ++ rest)) = some (ws ++ contentKey, ' ' :: (bt :: rest)) := by
  have hc : isWS 'c' = false := by decide
  have hbt : isWS bt = false := by decide
  have htake : (ws ++ (patContentBT ++ rest)).takeWhile isWS = ws := by
    rw [patContentBT_shape]
    exact takeWhile_middle hws hc
  have hdrop : (ws ++ (patContentBT ++ rest)).dropWhile isWS = patContentBT ++ rest := by
    rw [patContentBT_shape]
    exact dropWhile_middle hws hc
  have hassoc : patContentBT ++ rest = contentKey ++ ([' ', bt] ++ rest) := by
    simp [patContentBT]
  have hpref : contentKey.isPrefixOf (patContentBT ++ rest) = true := by
    rw [hassoc]
    exact prefOf_self_append _ _
  have hdropK : (patContentBT ++ rest).drop contentKey.length = [' ', bt] ++ rest := by
    rw [hassoc]
    exact List.drop_left _ _
  have htakeW : ([' ', bt] ++ rest).takeWhile isWS = [' '] := by
    rw [show ([' ', bt] ++ rest) = [' '] ++ (bt :: rest) from rfl]
    exact takeWhile_middle (by simp; decide) hbt
  have hdropW : ([' ', bt] ++ rest).dropWhile isWS = bt :: rest := by
    rw [show ([' ', bt] ++ rest) = [' '] ++ (bt :: rest) from rfl]
    exact dropWhile_middle (by simp; decide) hbt
  simp only [case1Split, htake, hdrop, hpref, if_true, hdropK, htakeW, hdropW]
  rw [show ([' '] : List Char).reverse = [' '] from rfl]
  rw [show case1Bt [' '] (bt :: rest) = some ([], ' ' :: (bt :: rest)) from by
        rw [case1Bt, if_neg (by simp [okC1_bt]), case1Bt,
            if_pos (okC1_space (bt :: rest) (by simp))]]
  simp

/-- C1 (amended): when the single-line content value closes with a bare
trailing delimiter and no comma, and the line carries no damaged role token
and no match of the description regex (patterns which the earlier rules
would rewrite first), one pass of `fix_backticks2.py` escapes every
interior backtick that is not already escaped and preserves the opening and
closing delimiters verbatim, while `fix_backticks.py` leaves such a line
unchanged; with a trailing comma — the claim's own example — neither script
produces the claimed output (see the counterexample). -/
theorem c1_interior_escape_amended (ws inner : List Char)
    (hws : ws.all isWS = true)
    (hbt : bt ∈ inner)
    (hri : strHas (ws ++ (patContentBT ++ (inner ++ [bt]))) patRoleIn = false)
    (hro : strHas (ws ++ (patContentBT ++ (inner ++ [bt]))) patRoleOut = false)
    (hds : descSearch (ws ++ (patContentBT ++ (inner ++ [bt]))) = none) :
    fixLine2 (ws ++ (patContentBT ++ (inner ++ [bt])))
      = ws ++ (patContentBT ++ (escTicks inner ++ [bt])) ∧
    fixLine1 (ws ++ (patContentBT ++ (inner ++ [bt])))
      = ws ++ (patContentBT ++ (inner ++ [bt])) := by
  have hcb : strHas (ws ++ (patContentBT ++ (inner ++ [bt]))) patContentBT = true :=
    strHas_parts ws patContentBT (inner ++ [bt])
  have hclean : cleanPre ws patContentBT (inner ++ [bt]) = true :=
    @cleanPre_head ws (inner ++ [bt]) patContentBT 'c' hws (by decide) (by decide)
  have haf : afterFirst (ws ++ (patContentBT ++ (inner ++ [bt]))) patContentBT = inner ++ [bt] :=
    afterFirst_parts_ne (by decide) hclean
  have hbf : beforeFirst (ws ++ (patContentBT ++ (inner ++ [bt]))) patContentBT = ws :=
    beforeFirst_parts_ne (by decide) hclean
  have hck : strHas (ws ++ (patContentBT ++ (inner ++ [bt]))) contentKey = true := by
    have h := strHas_parts ws contentKey ([' ', bt] ++ (inner ++ [bt]))
    simpa [patContentBT, List.append_assoc] using h
  have hps : pstrip (ws ++ (patContentBT ++ (inner ++ [bt])))
      = (patContentBT ++ inner) ++ [bt] := by
    unfold pstrip
    have h1 : stripL (ws ++ (patContentBT ++ (inner ++ [bt])))
        = patContentBT ++ (inner ++ [bt]) := by
      unfold stripL
      rw [patContentBT_shape]
      exact dropWhile_middle hws (by decide)
    rw [h1, show patContentBT ++ (inner ++ [bt]) = (patContentBT ++ inner) ++ [bt] from by simp,
       stripR_concat_neg (show isWS bt = false by decide)]
  have hsuf : List.isSuffixOf [bt] ((patContentBT ++ inner) ++ [bt]) = true :=
    isSufOf_concat bt (patContentBT ++ inner)
  have hcase1 : case1Split (ws ++ (patContentBT ++ (inner ++ [bt])))
      = some (ws ++ contentKey, ' ' :: (bt :: (inner ++ [bt]))) := case1Split_openBT hws
  have htext : pstrip (' ' :: (bt :: (inner ++ [bt]))) = (bt :: inner) ++ [bt] := by
    unfold pstrip
    have h1 : stripL (' ' :: (bt :: (inner ++ [bt]))) = bt :: (inner ++ [bt]) := by
      unfold stripL
      rw [show (' ' :: (bt :: (inner ++ [bt]))) = [' '] ++ (bt :: (inner ++ [bt])) from rfl]
      exact dropWhile_middle (by simp; decide) (by decide)
    rw [h1, show bt :: (inner ++ [bt]) = (bt :: inner) ++ [bt] from by simp,
       stripR_concat_neg (show isWS bt = false by decide)]
  have htsuf : List.isSuffixOf [bt] ((bt :: inner) ++ [bt]) = true :=
    isSufOf_concat bt (bt :: inner)
  have hcnt : ((ws ++ (patContentBT ++ (inner ++ [bt]))).count bt > 2) := by
    have h0 : ws.count bt = 0 := count_zero_of_all_ws hws
    have h1 : patContentBT.count bt = 1 := by decide
    have h2 : inner.count bt ≠ 0 := fun h => (List.count_eq_zero.mp h) hbt
    have h3 : ([bt] : List Char).count bt = 1 := by decide
    simp only [List.count_append, h0, h1, h3]
    omega
  have hrsuf : List.isSuffixOf [bt] (inner ++ [bt]) = true := isSufOf_concat bt inner
  have hrsuf2 : List.isSuffixOf [bt, ','] (inner ++ [bt]) = false :=
    isSufOf_pair_concat_false (by decide)
  have hdlast : (inner ++ [bt]).dropLast = inner := by simp
  constructor
  · simp only [fixLine2]
    rw [replace_not_has hri, replace_not_has hro, hds]
    simp only [Option.isSome_none, Bool.false_eq_true, if_false]
    rw [hck, if_pos rfl]
    rw [hcase1]
    simp only []
    simp only [htext, htsuf, Bool.not_true, Bool.and_false, Bool.false_eq_true, if_false]
    simp only [hcb, decide_eq_true hcnt, Bool.and_self, Bool.true_and]
    simp only [if_true]
    rw [haf, hrsuf, hrsuf2]
    simp only [Bool.or_false, if_true, Bool.false_eq_true, if_false]
    rw [hbf, hdlast]
    simp [List.append_assoc]
  · simp only [fixLine1]
    rw [hri]
    simp only [Bool.false_eq_true, if_false]
    rw [hro]
    simp only [Bool.false_eq_true, if_false]
    rw [hds]
    simp only [ite_self]
    rw [hcb, hps, hsuf]
    simp only [Bool.not_true, Bool.true_and, Bool.and_false, Bool.false_eq_true, if_false,
      Bool.false_and]
    rw [hcb]
    simp

/-- Closed witness for `c1_interior_escape_amended`, on a value that even
contains an apostrophe. -/
theorem c1_witness :
    fixLine2 ([] ++ (patContentBT ++ ("It's `code` here".data ++ [bt])))
      = [] ++ (patContentBT ++ (escTicks "It's `code` here".data ++ [bt])) ∧
    fixLine1 ([] ++ (patContentBT ++ ("It's `code` here".data ++ [bt])))
      = [] ++ (patContentBT ++ ("It's `code` here".data ++ [bt])) :=
  c1_interior_escape_amended [] "It's `code` here".data (by decide) (by decide) (by decide)
    (by decide) (by decide)

/-- C1 counterexample: on the claim's own example line, with the trailing
comma, neither script produces the claimed output — `fix_backticks.py`
escapes the closing delimiter as well, and `fix_backticks2.py` wraps the
already-delimited value in an extra pair of backticks. -/
theorem c1_counterexample :
    fixLine1 exEscape ≠ exEscapeClaimed ∧ fixLine2 exEscape ≠ exEscapeClaimed := by
  exact ⟨by decide, by decide⟩

/-- C3 (amended): `fix_backticks.py` removes every backtick from within the
single-quoted value of a description field and alters no other text on the
line (proved for every line of indentation, the field, a quote-free value
holding at least one backtick, and a quote-free remainder carrying no other
rule's pattern); `fix_backticks2.py` instead removes backtick PAIRS across
the whole line, so a value with an odd backtick keeps its last backtick
(see the counterexample). -/
theorem c3_description_strip_amended (ws v post : List Char)
    (hws : ws.all isWS = true)
    (hv : v.all (fun x => !(x == sq)) = true)
    (hbt : v.contains bt = true)
    (hpost : sq ∉ post)
    (hri : strHas (ws ++ (descKey ++ (' ' :: sq :: (v ++ sq :: post)))) patRoleIn = false)
    (hro : strHas (ws ++ (descKey ++ (' ' :: sq :: (v ++ sq :: post)))) patRoleOut = false)
    (hcont : strHas (ws ++ (descKey ++ (' ' :: sq ::
        (v.filter (fun c => !(c == bt)) ++ sq :: post)))) contentKey = false) :
    fixLine1 (ws ++ (descKey ++ (' ' :: sq :: (v ++ sq :: post))))
      = ws ++ (descKey ++ (' ' :: sq :: (v.filter (fun c => !(c == bt)) ++ sq :: post))) := by
  have hbtv : bt ∈ v := contains_iff.mp hbt
  have hgd : strHas (ws ++ (descKey ++ (' ' :: sq :: (v ++ sq :: post)))) descKey = true :=
    strHas_parts ws descKey (' ' :: sq :: (v ++ sq :: post))
  have hcbt : (ws ++ (descKey ++ (' ' :: sq :: (v ++ sq :: post)))).contains bt = true :=
    contains_true_of_mem (by simp [hbtv])
  have hcsq : (ws ++ (descKey ++ (' ' :: sq :: (v ++ sq :: post)))).contains sq = true :=
    contains_true_of_mem (by simp)
  have hsearch : descSearch (ws ++ (descKey ++ (' ' :: sq :: (v ++ sq :: post))))
      = some (descKey ++ ([' '] ++ (sq :: (v ++ [sq])))) := by
    rw [descSearch_ws_append hws]
    exact descSearch_of_tryAt (descTryAt_at hv hbt)
  have hfq1 : descKey.filter (fun c => !(c == bt)) = descKey := by decide
  have hfq2 : ((sq == bt) = false) := by decide
  have hfq3 : ((' ' == bt) = false) := by decide
  have hfilter : (descKey ++ ([' '] ++ (sq :: (v ++ [sq])))).filter (fun c => !(c == bt))
      = descKey ++ ([' '] ++ (sq :: (v.filter (fun c => !(c == bt)) ++ [sq]))) := by
    simp [List.filter_append, List.filter_cons, hfq1, hfq2, hfq3]
  have hodne : (descKey ++ ([' '] ++ (sq :: (v ++ [sq])))) ≠ [] :=
    fun h => absurd (List.append_eq_nil.mp h).1 (by decide)
  have hclean : cleanPre ws (descKey ++ ([' '] ++ (sq :: (v ++ [sq])))) post = true :=
    @cleanPre_head ws post (descKey ++ ([' '] ++ (sq :: (v ++ [sq])))) 'd' hws rfl (by decide)
  have hsqod : sq ∈ descKey ++ ([' '] ++ (sq :: (v ++ [sq]))) := by simp
  have hpostod : strHas post (descKey ++ ([' '] ++ (sq :: (v ++ [sq])))) = false :=
    strHas_false_of_not_mem hsqod hpost
  have hshape : ws ++ (descKey ++ (' ' :: sq :: (v ++ sq :: post)))
      = ws ++ ((descKey ++ ([' '] ++ (sq :: (v ++ [sq])))) ++ post) := by
    simp
  have hreplace : replaceList (ws ++ (descKey ++ (' ' :: sq :: (v ++ sq :: post))))
      (descKey ++ ([' '] ++ (sq :: (v ++ [sq]))))
      ((descKey ++ ([' '] ++ (sq :: (v ++ [sq])))).filter (fun c => !(c == bt)))
      = ws ++ (descKey ++ (' ' :: sq :: (v.filter (fun c => !(c == bt)) ++ sq :: post))) := by
    rw [hshape, replace_parts_ne hodne hclean hpostod, hfilter]
    simp
  have hcb := strHas_extend_false hcont
    (show patContentBT = [] ++ (contentKey ++ [' ', bt]) from rfl)
  have hcs := strHas_extend_false hcont
    (show patContentSQ = [] ++ (contentKey ++ [' ', sq]) from rfl)
  have hcd := strHas_extend_false hcont
    (show patContentDQ = [] ++ (contentKey ++ [' ', dq, dq]) from rfl)
  simp only [fixLine1]
  rw [hri]
  simp only [Bool.false_eq_true, if_false]
  rw [hro]
  simp only [Bool.false_eq_true, if_false]
  rw [hgd, hcbt, hcsq]
  simp only [Bool.and_self, if_true]
  rw [hsearch]
  simp only []
  rw [hreplace]
  rw [hcb]
  simp only [Bool.false_eq_true, if_false, Bool.and_false, Bool.false_and]
  rw [hcont]
  simp only [Bool.false_eq_true, if_false, Bool.false_and]

/-- Closed witness for `c3_description_strip_amended`. -/
theorem c3_witness :
    fixLine1 ([] ++ (descKey ++ (' ' :: sq :: ("use the `foo` helper".data ++ sq :: []))))
      = [] ++ (descKey ++ (' ' :: sq ::
          ("use the `foo` helper".data.filter (fun c => !(c == bt)) ++ sq :: []))) :=
  c3_description_strip_amended [] "use the `foo` helper".data [] (by decide) (by decide)
    (by decide) (by decide) (by decide) (by decide) (by decide)

/-- C3 counterexample: a description value holding a single unpaired backtick
is left unchanged by `fix_backticks2.py` — the backtick is not removed, so
the claim fails on that script. -/
theorem c3_counterexample :
    fixLine2 exOddDesc = exOddDesc ∧ fixLine2 exOddDesc ≠ "description: 'ab'".data :=
  ⟨by decide, by decide⟩

/-- C4 (amended): for every line of leading whitespace, `content: ` and a
bare value of at least two characters whose first character is neither
whitespace, backtick, single quote nor double quote, which contains no
backtick or quote at all and whose last character is not whitespace, one
pass of either script wraps the entire value in backtick delimiters,
preserving the whitespace before `content:` exactly; the original claim
fails because `fix_backticks2.py` skips a bare value that ends with a
backtick (see the counterexample) and drops the separating space for a
one-character value. -/
theorem c4_wrap_bare_amended (ws mid : List Char) (c d : Char)
    (hws : ws.all isWS = true)
    (hcws : isWS c = false)
    (hc1 : (c == bt) = false) (hc2 : (c == sq) = false) (hc3 : (c == dq) = false)
    (hdws : isWS d = false)
    (hsq : sq ∉ c :: (mid ++ [d]))
    (hdq : dq ∉ c :: (mid ++ [d]))
    (hbt : bt ∉ c :: (mid ++ [d])) :
    fixLine1 (ws ++ (contentKey ++ (' ' :: (c :: (mid ++ [d])))))
      = ws ++ (contentKey ++ (' ' :: (bt :: ((c :: (mid ++ [d])) ++ [bt])))) ∧
    fixLine2 (ws ++ (contentKey ++ (' ' :: (c :: (mid ++ [d])))))
      = ws ++ (contentKey ++ (' ' :: (bt :: ((c :: (mid ++ [d])) ++ [bt])))) := by
  have hsqsp : sq ∉ (' ' :: (c :: (mid ++ [d]))) := by
    intro h
    rcases List.mem_cons.mp h with h | h
    · exact absurd h (by decide)
    · exact hsq h
  have hdqsp : dq ∉ (' ' :: (c :: (mid ++ [d]))) := by
    intro h
    rcases List.mem_cons.mp h with h | h
    · exact absurd h (by decide)
    · exact hdq h
  have hbtsp : bt ∉ (' ' :: (c :: (mid ++ [d]))) := by
    intro h
    rcases List.mem_cons.mp h with h | h
    · exact absurd h (by decide)
    · exact hbt h
  have hsqL : sq ∉ ws ++ (contentKey ++ (' ' :: (c :: (mid ++ [d])))) :=
    not_mem_append_iff (not_mem_of_all_ws hws (by decide))
      (not_mem_append_iff (by decide) hsqsp)
  have hdqL : dq ∉ ws ++ (contentKey ++ (' ' :: (c :: (mid ++ [d])))) :=
    not_mem_append_iff (not_mem_of_all_ws hws (by decide))
      (not_mem_append_iff (by decide) hdqsp)
  have hbtL : bt ∉ ws ++ (contentKey ++ (' ' :: (c :: (mid ++ [d])))) :=
    not_mem_append_iff (not_mem_of_all_ws hws (by decide))
      (not_mem_append_iff (by decide) hbtsp)
  have hri : strHas (ws ++ (contentKey ++ (' ' :: (c :: (mid ++ [d]))))) patRoleIn = false :=
    strHas_false_of_not_mem (show sq ∈ patRoleIn by decide) hsqL
  have hro : strHas (ws ++ (contentKey ++ (' ' :: (c :: (mid ++ [d]))))) patRoleOut = false :=
    strHas_false_of_not_mem (show sq ∈ patRoleOut by decide) hsqL
  have hds : descSearch (ws ++ (contentKey ++ (' ' :: (c :: (mid ++ [d]))))) = none :=
    descSearch_none_of_no_sq hsqL
  have hcsqL : (ws ++ (contentKey ++ (' ' :: (c :: (mid ++ [d]))))).contains sq = false :=
    contains_false_of_not_mem hsqL
  have hck : strHas (ws ++ (contentKey ++ (' ' :: (c :: (mid ++ [d]))))) contentKey = true :=
    strHas_parts ws contentKey (' ' :: (c :: (mid ++ [d])))
  have hcbF : strHas (ws ++ (contentKey ++ (' ' :: (c :: (mid ++ [d]))))) patContentBT = false :=
    strHas_false_of_not_mem (show bt ∈ patContentBT by decide) hbtL
  have hcsF : strHas (ws ++ (contentKey ++ (' ' :: (c :: (mid ++ [d]))))) patContentSQ = false :=
    strHas_false_of_not_mem (show sq ∈ patContentSQ by decide) hsqL
  have hcdF : strHas (ws ++ (contentKey ++ (' ' :: (c :: (mid ++ [d]))))) patContentDQ = false :=
    strHas_false_of_not_mem (show dq ∈ patContentDQ by decide) hdqL
  have hckshape : contentKey ++ (' ' :: (c :: (mid ++ [d])))
      = 'c' :: ("ontent:".data ++ (' ' :: (c :: (mid ++ [d])))) := rfl
  have hdropL : (ws ++ (contentKey ++ (' ' :: (c :: (mid ++ [d]))))).dropWhile isWS
      = contentKey ++ (' ' :: (c :: (mid ++ [d]))) := by
    rw [hckshape]
    exact dropWhile_middle hws (by decide)
  have hstripL : stripL (ws ++ (contentKey ++ (' ' :: (c :: (mid ++ [d])))))
      = contentKey ++ (' ' :: (c :: (mid ++ [d]))) := hdropL
  have hps : pstrip (ws ++ (contentKey ++ (' ' :: (c :: (mid ++ [d])))))
      = contentKey ++ (' ' :: (c :: (mid ++ [d]))) := by
    unfold pstrip
    rw [hstripL,
      show contentKey ++ (' ' :: (c :: (mid ++ [d])))
        = (contentKey ++ (' ' :: (c :: mid))) ++ [d] from by simp,
      stripR_concat_neg hdws]
  have hpref : contentKey.isPrefixOf (contentKey ++ (' ' :: (c :: (mid ++ [d])))) = true :=
    prefOf_self_append _ _
  have htakeL : (ws ++ (contentKey ++ (' ' :: (c :: (mid ++ [d]))))).takeWhile isWS = ws := by
    rw [hckshape]
    exact takeWhile_middle hws (by decide)
  have hdropK : (contentKey ++ (' ' :: (c :: (mid ++ [d])))).drop contentKey.length
      = ' ' :: (c :: (mid ++ [d])) := List.drop_left _ _
  have htakeS : (' ' :: (c :: (mid ++ [d]))).takeWhile isWS = [' '] := by
    rw [show (' ' :: (c :: (mid ++ [d]))) = [' '] ++ (c :: (mid ++ [d])) from rfl]
    exact takeWhile_middle (by simp; decide) hcws
  have hdropS : (' ' :: (c :: (mid ++ [d]))).dropWhile isWS = c :: (mid ++ [d]) := by
    rw [show (' ' :: (c :: (mid ++ [d]))) = [' '] ++ (c :: (mid ++ [d])) from rfl]
    exact dropWhile_middle (by simp; decide) hcws
  have hr4 : rule4Split (ws ++ (contentKey ++ (' ' :: (c :: (mid ++ [d])))))
      = some ((ws ++ contentKey) ++ [' '], c :: (mid ++ [d])) := by
    simp only [rule4Split, htakeL, hdropL, hpref, eq_self_iff_true, if_true, hdropK, htakeS,
      hdropS, List.isEmpty_cons, Bool.false_eq_true, if_false]
  have htext : pstrip (c :: (mid ++ [d])) = c :: (mid ++ [d]) := by
    unfold pstrip
    rw [show stripL (c :: (mid ++ [d])) = c :: (mid ++ [d]) from stripL_cons_neg hcws,
      show (c :: (mid ++ [d])) = (c :: mid) ++ [d] from by simp, stripR_concat_neg hdws]
  have hc1Split : case1Split (ws ++ (contentKey ++ (' ' :: (c :: (mid ++ [d])))))
      = some ((ws ++ contentKey) ++ [' '], c :: (mid ++ [d])) := by
    have hok : okC1 (c :: (mid ++ [d])) = true := by
      simp [okC1, hc1, hc2, hc3]
    simp only [case1Split, htakeL, hdropL, hpref, eq_self_iff_true, if_true, hdropK, htakeS,
      hdropS]
    rw [show ([' '] : List Char).reverse = [' '] from rfl]
    rw [case1Bt, if_pos hok]
    simp
  have hl3 : ((ws ++ contentKey) ++ [' ']) ++ bt :: ((c :: (mid ++ [d])) ++ [bt])
      = ws ++ (contentKey ++ (' ' :: (bt :: ((c :: (mid ++ [d])) ++ [bt])))) := by
    simp
  have hcnt2 : (((ws ++ contentKey) ++ [' ']) ++ bt :: ((c :: (mid ++ [d])) ++ [bt])).count bt
      = 2 := by
    have h0 : ws.count bt = 0 := count_zero_of_all_ws hws
    have h1 : contentKey.count bt = 0 := by decide
    have h2 : (c :: (mid ++ [d])).count bt = 0 := List.count_eq_zero.mpr hbt
    have h3 : ([' '] : List Char).count bt = 0 := by decide
    have h4 : ([bt] : List Char).count bt = 1 := by decide
    rw [show bt :: ((c :: (mid ++ [d])) ++ [bt]) = [bt] ++ ((c :: (mid ++ [d])) ++ [bt])
      from rfl]
    simp only [List.count_append, h0, h1, h2, h3, h4]
  constructor
  · simp only [fixLine1]
    rw [hri]
    simp only [Bool.false_eq_true, if_false]
    rw [hro]
    simp only [Bool.false_eq_true, if_false]
    rw [hcsqL]
    simp only [Bool.and_false, Bool.false_eq_true, if_false]
    rw [hcbF]
    simp only [Bool.false_eq_true, if_false, Bool.false_and, Bool.and_false]
    rw [hck, hcsF, hcdF, hps, hpref]
    simp only [Bool.not_false, Bool.and_true, Bool.true_and, Bool.and_self]
    rw [hcbF]
    simp only [Bool.not_false, if_true]
    rw [hr4]
    simp only []
    rw [htext]
    simp only [List.isEmpty_cons, Bool.not_false, headIs, hc1, hc2, hc3, Bool.and_self,
      Bool.true_and, Bool.and_true, if_true]
    exact hl3
  · simp only [fixLine2]
    rw [replace_not_has hri, replace_not_has hro, hds]
    simp only [Option.isSome_none, Bool.false_eq_true, if_false]
    simp only [hck, eq_self_iff_true, if_true]
    simp only [hc1Split]
    rw [htext]
    rw [show List.isSuffixOf [bt] (c :: (mid ++ [d])) = false from isSufOf_single_false hbt]
    simp only [List.isEmpty_cons, Bool.not_false, Bool.true_and, Bool.and_self, if_true]
    have hdec : decide ((((ws ++ contentKey) ++ [' '])
        ++ bt :: ((c :: (mid ++ [d])) ++ [bt])).count bt > 2) = false :=
      decide_eq_false (by rw [hcnt2]; omega)
    rw [hdec]
    simp only [Bool.and_false, Bool.false_eq_true, if_false]
    exact hl3

/-- Closed witness for `c4_wrap_bare_amended`. -/
theorem c4_witness :
    fixLine1 ("  ".data ++ (contentKey ++ (' ' :: ('H' :: ("ello worl".data ++ ['d'])))))
      = "  ".data ++ (contentKey ++ (' ' :: (bt :: (('H' :: ("ello worl".data ++ ['d'])) ++ [bt])))) ∧
    fixLine2 ("  ".data ++ (contentKey ++ (' ' :: ('H' :: ("ello worl".data ++ ['d'])))))
      = "  ".data ++ (contentKey ++ (' ' :: (bt :: (('H' :: ("ello worl".data ++ ['d'])) ++ [bt])))) :=
  c4_wrap_bare_amended "  ".data "ello worl".data 'H' 'd' (by decide) (by decide) (by decide)
    (by decide) (by decide) (by decide) (by decide) (by decide) (by decide)

/-- C4 counterexample: the bare value `Hello``  begins with an ordinary
letter, yet `fix_backticks2.py` does not wrap it — its case-1 test rejects
any value that ends with a backtick — so the line is left unchanged rather
than wrapped. -/
theorem c4_counterexample :
    fixLine2 exBareTick = exBareTick ∧
    fixLine2 exBareTick ≠ "content: `Hello``".data :=
  ⟨by decide, by decide⟩

/-- C10: the missing-delimiter wrap of both scripts strips the value with
`.strip()` before wrapping, so for every bare content line whose text is
followed by trailing whitespace, that whitespace is dropped and does not
appear inside the inserted delimiters: `content: Hello ` becomes
`content: ``Hello```. -/
theorem c10_wrap_strips_trailing_ws (ws mid t : List Char) (c : Char)
    (hws : ws.all isWS = true)
    (ht : t.all isWS = true) (htne : t ≠ [])
    (hcws : isWS c = false)
    (hc1 : (c == bt) = false) (hc2 : (c == sq) = false) (hc3 : (c == dq) = false)
    (hsq : sq ∉ c :: mid) (hdq : dq ∉ c :: mid) (hbt : bt ∉ c :: mid)
    (hstr : stripR (c :: mid) = c :: mid) :
    fixLine1 (ws ++ (contentKey ++ (' ' :: (c :: (mid ++ t)))))
      = ws ++ (contentKey ++ (' ' :: (bt :: ((c :: mid) ++ [bt])))) ∧
    fixLine2 (ws ++ (contentKey ++ (' ' :: (c :: (mid ++ t)))))
      = ws ++ (contentKey ++ (' ' :: (bt :: ((c :: mid) ++ [bt])))) := by
  have hvshape : c :: (mid ++ t) = (c :: mid) ++ t := by simp
  have hsqsp : sq ∉ (' ' :: (c :: (mid ++ t))) := by
    intro h
    rcases List.mem_cons.mp h with h | h
    · exact absurd h (by decide)
    · rw [hvshape] at h
      rcases List.mem_append.mp h with h | h
      · exact hsq h
      · exact not_mem_of_all_ws ht (by decide) h
  have hdqsp : dq ∉ (' ' :: (c :: (mid ++ t))) := by
    intro h
    rcases List.mem_cons.mp h with h | h
    · exact absurd h (by decide)
    · rw [hvshape] at h
      rcases List.mem_append.mp h with h | h
      · exact hdq h
      · exact not_mem_of_all_ws ht (by decide) h
  have hbtsp : bt ∉ (' ' :: (c :: (mid ++ t))) := by
    intro h
    rcases List.mem_cons.mp h with h | h
    · exact absurd h (by decide)
    · rw [hvshape] at h
      rcases List.mem_append.mp h with h | h
      · exact hbt h
      · exact not_mem_of_all_ws ht (by decide) h
  have hsqL : sq ∉ ws ++ (contentKey ++ (' ' :: (c :: (mid ++ t)))) :=
    not_mem_append_iff (not_mem_of_all_ws hws (by decide))
      (not_mem_append_iff (by decide) hsqsp)
  have hdqL : dq ∉ ws ++ (contentKey ++ (' ' :: (c :: (mid ++ t)))) :=
    not_mem_append_iff (not_mem_of_all_ws hws (by decide))
      (not_mem_append_iff (by decide) hdqsp)
  have hbtL : bt ∉ ws ++ (contentKey ++ (' ' :: (c :: (mid ++ t)))) :=
    not_mem_append_iff (not_mem_of_all_ws hws (by decide))
      (not_mem_append_iff (by decide) hbtsp)
  have hri : strHas (ws ++ (contentKey ++ (' ' :: (c :: (mid ++ t))))) patRoleIn = false :=
    strHas_false_of_not_mem (show sq ∈ patRoleIn by decide) hsqL
  have hro : strHas (ws ++ (contentKey ++ (' ' :: (c :: (mid ++ t))))) patRoleOut = false :=
    strHas_false_of_not_mem (show sq ∈ patRoleOut by decide) hsqL
  have hds : descSearch (ws ++ (contentKey ++ (' ' :: (c :: (mid ++ t))))) = none :=
    descSearch_none_of_no_sq hsqL
  have hcsqL : (ws ++ (contentKey ++ (' ' :: (c :: (mid ++ t))))).contains sq = false :=
    contains_false_of_not_mem hsqL
  have hck : strHas (ws ++ (contentKey ++ (' ' :: (c :: (mid ++ t))))) contentKey = true :=
    strHas_parts ws contentKey (' ' :: (c :: (mid ++ t)))
  have hcbF : strHas (ws ++ (contentKey ++ (' ' :: (c :: (mid ++ t))))) patContentBT = false :=
    strHas_false_of_not_mem (show bt ∈ patContentBT by decide) hbtL
  have hcsF : strHas (ws ++ (contentKey ++ (' ' :: (c :: (mid ++ t))))) patContentSQ = false :=
    strHas_false_of_not_mem (show sq ∈ patContentSQ by decide) hsqL
  have hcdF : strHas (ws ++ (contentKey ++ (' ' :: (c :: (mid ++ t))))) patContentDQ = false :=
    strHas_false_of_not_mem (show dq ∈ patContentDQ by decide) hdqL
  have hckshape : contentKey ++ (' ' :: (c :: (mid ++ t)))
      = 'c' :: ("ontent:".data ++ (' ' :: (c :: (mid ++ t)))) := rfl
  have hdropL : (ws ++ (contentKey ++ (' ' :: (c :: (mid ++ t))))).dropWhile isWS
      = contentKey ++ (' ' :: (c :: (mid ++ t))) := by
    rw [hckshape]
    exact dropWhile_middle hws (by decide)
  have htakeL : (ws ++ (contentKey ++ (' ' :: (c :: (mid ++ t))))).takeWhile isWS = ws := by
    rw [hckshape]
    exact takeWhile_middle hws (by decide)
  have hstrfix : stripR (contentKey ++ (' ' :: (c :: mid))) = contentKey ++ (' ' :: (c :: mid)) := by
    rw [show contentKey ++ (' ' :: (c :: mid)) = (contentKey ++ [' ']) ++ (c :: mid) from by simp]
    exact stripR_append_of_fix hstr (by simp)
  have hps : pstrip (ws ++ (contentKey ++ (' ' :: (c :: (mid ++ t)))))
      = contentKey ++ (' ' :: (c :: mid)) := by
    unfold pstrip
    rw [show stripL (ws ++ (contentKey ++ (' ' :: (c :: (mid ++ t)))))
        = contentKey ++ (' ' :: (c :: (mid ++ t))) from hdropL]
    rw [show contentKey ++ (' ' :: (c :: (mid ++ t)))
        = (contentKey ++ (' ' :: (c :: mid))) ++ t from by simp]
    rw [stripR_append_ws ht, hstrfix]
  have hpref : contentKey.isPrefixOf (contentKey ++ (' ' :: (c :: mid))) = true :=
    prefOf_self_append _ _
  have hdropK : (contentKey ++ (' ' :: (c :: (mid ++ t)))).drop contentKey.length
      = ' ' :: (c :: (mid ++ t)) := List.drop_left _ _
  have htakeS : (' ' :: (c :: (mid ++ t))).takeWhile isWS = [' '] := by
    rw [show (' ' :: (c :: (mid ++ t))) = [' '] ++ (c :: (mid ++ t)) from rfl]
    exact takeWhile_middle (by simp; decide) hcws
  have hdropS : (' ' :: (c :: (mid ++ t))).dropWhile isWS = c :: (mid ++ t) := by
    rw [show (' ' :: (c :: (mid ++ t))) = [' '] ++ (c :: (mid ++ t)) from rfl]
    exact dropWhile_middle (by simp; decide) hcws
  have hr4 : rule4Split (ws ++ (contentKey ++ (' ' :: (c :: (mid ++ t)))))
      = some ((ws ++ contentKey) ++ [' '], c :: (mid ++ t)) := by
    simp only [rule4Split, htakeL, hdropL, hpref, eq_self_iff_true, if_true, hdropK, htakeS,
      hdropS, List.isEmpty_cons, Bool.false_eq_true, if_false]
    have hprefL : contentKey.isPrefixOf (contentKey ++ (' ' :: (c :: (mid ++ t)))) = true :=
      prefOf_self_append _ _
    simp [hprefL]
  have htext : pstrip (c :: (mid ++ t)) = c :: mid := by
    unfold pstrip
    rw [show stripL (c :: (mid ++ t)) = c :: (mid ++ t) from stripL_cons_neg hcws, hvshape,
      stripR_append_ws ht, hstr]
  have hmtne : (mid ++ t).isEmpty = false := by
    cases hmt : mid ++ t with
    | nil => exact absurd (List.append_eq_nil.mp hmt).2 htne
    | cons a b => rfl
  have hc1Split : case1Split (ws ++ (contentKey ++ (' ' :: (c :: (mid ++ t)))))
      = some ((ws ++ contentKey) ++ [' '], c :: (mid ++ t)) := by
    have hok : okC1 (c :: (mid ++ t)) = true := by
      simp [okC1, hc1, hc2, hc3, hmtne]
    have hprefL : contentKey.isPrefixOf (contentKey ++ (' ' :: (c :: (mid ++ t)))) = true :=
      prefOf_self_append _ _
    simp only [case1Split, htakeL, hdropL, hprefL, eq_self_iff_true, if_true, hdropK, htakeS,
      hdropS]
    rw [show ([' '] : List Char).reverse = [' '] from rfl]
    rw [case1Bt, if_pos hok]
    simp
  have hl3 : ((ws ++ contentKey) ++ [' ']) ++ bt :: ((c :: mid) ++ [bt])
      = ws ++ (contentKey ++ (' ' :: (bt :: ((c :: mid) ++ [bt])))) := by
    simp
  have hcnt2 : (((ws ++ contentKey) ++ [' ']) ++ bt :: ((c :: mid) ++ [bt])).count bt = 2 := by
    have h0 : ws.count bt = 0 := count_zero_of_all_ws hws
    have h1 : contentKey.count bt = 0 := by decide
    have h2 : (c :: mid).count bt = 0 := List.count_eq_zero.mpr hbt
    have h3 : ([' '] : List Char).count bt = 0 := by decide
    have h4 : ([bt] : List Char).count bt = 1 := by decide
    rw [show bt :: ((c :: mid) ++ [bt]) = [bt] ++ ((c :: mid) ++ [bt]) from rfl]
    simp only [List.count_append, h0, h1, h2, h3, h4]
  constructor
  · simp only [fixLine1]
    rw [hri]
    simp only [Bool.false_eq_true, if_false]
    rw [hro]
    simp only [Bool.false_eq_true, if_false]
    rw [hcsqL]
    simp only [Bool.and_false, Bool.false_eq_true, if_false]
    rw [hcbF]
    simp only [Bool.false_eq_true, if_false, Bool.false_and, Bool.and_false]
    rw [hck, hcsF, hcdF, hps, hpref]
    simp only [Bool.not_false, Bool.and_true, Bool.true_and, Bool.and_self]
    rw [hcbF]
    simp only [Bool.not_false, if_true]
    rw [hr4]
    simp only []
    rw [htext]
    simp only [List.isEmpty_cons, Bool.not_false, headIs, hc1, hc2, hc3, Bool.and_self,
      Bool.true_and, Bool.and_true, if_true]
    exact hl3
  · simp only [fixLine2]
    rw [replace_not_has hri, replace_not_has hro, hds]
    simp only [Option.isSome_none, Bool.false_eq_true, if_false]
    simp only [hck, eq_self_iff_true, if_true]
    simp only [hc1Split]
    rw [htext]
    rw [show List.isSuffixOf [bt] (c :: mid) = false from isSufOf_single_false hbt]
    simp only [List.isEmpty_cons, Bool.not_false, Bool.true_and, Bool.and_self, if_true]
    have hdec : decide ((((ws ++ contentKey) ++ [' '])
        ++ bt :: ((c :: mid) ++ [bt])).count bt > 2) = false :=
      decide_eq_false (by rw [hcnt2]; omega)
    rw [hdec]
    simp only [Bool.and_false, Bool.false_eq_true, if_false]
    exact hl3

/-- Closed witness for `c10_wrap_strips_trailing_ws`. -/
theorem c10_witness :
    fixLine1 ([] ++ (contentKey ++ (' ' :: ('H' :: ("ello".data ++ "   ".data)))))
      = [] ++ (contentKey ++ (' ' :: (bt :: (('H' :: "ello".data) ++ [bt])))) ∧
    fixLine2 ([] ++ (contentKey ++ (' ' :: ('H' :: ("ello".data ++ "   ".data)))))
      = [] ++ (contentKey ++ (' ' :: (bt :: (('H' :: "ello".data) ++ [bt])))) :=
  c10_wrap_strips_trailing_ws [] "ello".data "   ".data 'H' (by decide) (by decide) (by decide)
    (by decide) (by decide) (by decide) (by decide) (by decide) (by decide) (by decide)
    (by decide)

/-- C6 (amended): `fix_backticks.py` passes the opening line of a
well-formed multi-line content value — leading whitespace, `content: ``, and
a remainder whose backticks are all already escaped (an escape fixed point)
and which carries no role or description pattern — through unchanged;
interior and closing lines without field keys are covered by the
unrelated-line guarantee; `fix_backticks2.py` however rewrites such opening
lines by wrapping them in a spurious extra pair of backticks (see the
counterexample), so the claim fails for that script. -/
theorem c6_multiline_passthrough_amended (ws rest : List Char)
    (hws : ws.all isWS = true)
    (hesc : escTicks rest = rest)
    (hri : strHas (ws ++ (patContentBT ++ rest)) patRoleIn = false)
    (hro : strHas (ws ++ (patContentBT ++ rest)) patRoleOut = false)
    (hdesc : strHas (ws ++ (patContentBT ++ rest)) descKey = false) :
    fixLine1 (ws ++ (patContentBT ++ rest)) = ws ++ (patContentBT ++ rest) := by
  have hcb : strHas (ws ++ (patContentBT ++ rest)) patContentBT = true :=
    strHas_parts ws patContentBT rest
  have hclean : cleanPre ws patContentBT rest = true :=
    @cleanPre_head ws rest patContentBT 'c' hws (by decide) (by decide)
  have haf : afterFirst (ws ++ (patContentBT ++ rest)) patContentBT = rest :=
    afterFirst_parts_ne (by decide) hclean
  have hbf : beforeFirst (ws ++ (patContentBT ++ rest)) patContentBT = ws :=
    beforeFirst_parts_ne (by decide) hclean
  simp only [fixLine1]
  rw [hri]
  simp only [Bool.false_eq_true, if_false]
  rw [hro]
  simp only [Bool.false_eq_true, if_false]
  rw [hdesc]
  simp only [Bool.false_and, Bool.false_eq_true, if_false]
  rw [hcb]
  by_cases hsufc : List.isSuffixOf [bt] (pstrip (ws ++ (patContentBT ++ rest))) = true
  · rw [hsufc]
    simp only [Bool.not_true, Bool.and_false, Bool.false_eq_true, if_false]
    rw [hcb]
    simp only [Bool.not_true, Bool.false_and, Bool.and_false, Bool.true_and,
      Bool.false_eq_true, if_false]
  · have hsufc2 : List.isSuffixOf [bt] (pstrip (ws ++ (patContentBT ++ rest))) = false :=
      Bool.eq_false_iff.mpr hsufc
    rw [hsufc2]
    simp only [Bool.not_false, Bool.and_true, Bool.true_and, if_true]
    rw [haf]
    by_cases hbt2 : rest.contains bt = true
    · rw [hbt2]
      by_cases hs2 : List.isSuffixOf [bt] rest = true
      · rw [hs2]
        simp only [Bool.not_true, Bool.and_false, Bool.false_eq_true, if_false]
        rw [hcb]
        simp only [Bool.not_true, Bool.false_and, Bool.and_false, Bool.true_and,
          Bool.false_eq_true, if_false]
      · have hs2f : List.isSuffixOf [bt] rest = false := Bool.eq_false_iff.mpr hs2
        rw [hs2f]
        simp only [Bool.not_false, Bool.and_self, Bool.true_and, if_true]
        rw [hbf, hesc]
        simp only [List.append_assoc]
        have hcb2 : strHas (ws ++ (patContentBT ++ rest)) patContentBT = true := hcb
        rw [hcb2]
        simp only [Bool.not_true, Bool.false_and, Bool.and_false, Bool.true_and,
          Bool.false_eq_true, if_false]
    · have hbt2f : rest.contains bt = false := Bool.eq_false_iff.mpr hbt2
      rw [hbt2f]
      simp only [Bool.false_and, Bool.false_eq_true, if_false]
      rw [hcb]
      simp only [Bool.not_true, Bool.false_and, Bool.and_false, Bool.true_and,
        Bool.false_eq_true, if_false]

/-- Closed witness for `c6_multiline_passthrough_amended`. -/
theorem c6_witness :
    fixLine1 ("  ".data ++ (patContentBT ++ "This value has a \\` escaped tick".data))
      = "  ".data ++ (patContentBT ++ "This value has a \\` escaped tick".data) :=
  c6_multiline_passthrough_amended "  ".data "This value has a \\` escaped tick".data
    (by decide) (by decide) (by decide) (by decide) (by decide)

/-- C6 counterexample: on a three-line document holding one well-formed
multi-line content value, `fix_backticks2.py` modifies the opening line
(its case-1 rule wraps `content: ``Hello` into `content:````Hello```), so the
document is not passed through unchanged. -/
theorem c6_counterexample : fixFile2 exOpenML ≠ exOpenML := by decide

end Claims

end BacktickRepair
